import Mathlib

/-!
Verification of the cmangos-tbc realmd authentication core.

This file gives a shallow embedding of the pure computational parts of the
repository (BigNumber arithmetic, SRP6 session-key agreement, strong session
key derivation, wire packet parsers, the opcode/state legality check of the
connection loop, realm-list counting/filtering, base32 decoding and the TOTP
token generator), and proves the specification claims about them.

Conventions:
- Rust BigUint values are embedded as Nat (BigUint subtraction clamps at
  zero, exactly like Nat.sub; it is never used by the embedded code anyway).
- Byte strings are List Nat, one entry per byte.
- Randomness (thread_rng draws) and the current time become explicit
  function arguments.
- Fallible operations return Option.
-/

set_option maxRecDepth 100000

/-! ## Byte-array helpers (num-bigint BigUint wire conversions) -/

/-- Big-endian interpretation of a byte list, as BigUint.from_bytes_be. -/
def bytesToNatBE (bs : List Nat) : Nat :=
  bs.foldl (fun acc b => acc * 256 + b) 0

/-- Fuel-driven base-256 digit extraction, least significant digit first.
The fuel only bounds the recursion depth; any fuel at least n is exact. -/
def natToBytesLE_go : Nat → Nat → List Nat
  | _, 0 => []
  | 0, _ => []
  | fuel + 1, n => (n % 256) :: natToBytesLE_go fuel (n / 256)

/-- Little-endian base-256 digits of a number, least significant first;
empty for zero.  Helper for the BigUint.to_bytes_be embedding. -/
def natToBytesLE (n : Nat) : List Nat :=
  natToBytesLE_go n n

/-- BigUint.to_bytes_be: minimal big-endian bytes, with the single byte 0
for the value zero. -/
def to_bytes_be (n : Nat) : List Nat :=
  if n = 0 then [0] else (natToBytesLE n).reverse

/-- BigNumber::set_binary: interpret a little-endian byte slice (the Rust
code reverses the slice and feeds it to BigUint::from_bytes_be). -/
def set_binary (bytes : List Nat) : Nat :=
  bytesToNatBE bytes.reverse

/-- BigNumber::as_byte_array: big-endian bytes left-padded with zeros up to
min_size, then the whole buffer reversed into little-endian order. -/
def as_byte_array (n : Nat) (min_size : Nat) : List Nat :=
  let be := to_bytes_be n
  let length := if min_size > be.length then min_size else be.length
  (List.replicate (length - be.length) 0 ++ be).reverse

/-- BigUint::bits: zero for zero, otherwise the index of the highest set
bit plus one. -/
def biguint_bits (n : Nat) : Nat :=
  if n = 0 then 0 else Nat.log2 n + 1

/-- BigNumber::get_num_bytes: bits().div_ceil(8). -/
def get_num_bytes (n : Nat) : Nat :=
  (biguint_bits n + 7) / 8

/-! ## Hex-string parsing (BigNumber::set_hex_str) -/

/-- Whether a character is an ASCII hexadecimal digit. -/
def is_hex_digit (c : Char) : Bool :=
  (('0' ≤ c ∧ c ≤ '9') ∨ ('a' ≤ c ∧ c ≤ 'f') ∨ ('A' ≤ c ∧ c ≤ 'F') : Prop)

/-- Numeric value of an ASCII hexadecimal digit. -/
def hex_val (c : Char) : Nat :=
  if '0' ≤ c ∧ c ≤ '9' then c.toNat - '0'.toNat
  else if 'a' ≤ c ∧ c ≤ 'f' then c.toNat - 'a'.toNat + 10
  else c.toNat - 'A'.toNat + 10

/-- A character that num-bigint consumes at radix 16: a hexadecimal digit
or the underscore digit separator. -/
def hex_or_sep (c : Char) : Bool :=
  is_hex_digit c || c == '_'

/-- The digit loop of BigUint::from_str_radix: underscore separators are
skipped, hexadecimal digits are folded into the accumulator, any other
character (including a letter whose digit value reaches 16) fails. -/
def parse_hex_go (cs : List Char) (acc : Nat) : Option Nat :=
  match cs with
  | [] => some acc
  | c :: rest =>
    if c = '_' then parse_hex_go rest acc
    else if is_hex_digit c then parse_hex_go rest (acc * 16 + hex_val c)
    else none

/-- BigUint::parse_bytes at radix 16 (num-bigint from_str_radix): strip one
leading plus sign unless a second one follows, fail on an empty remainder
or on a leading underscore, then run the digit loop. -/
def parse_bytes_16 (cs : List Char) : Option Nat :=
  let s := if cs.head? = some '+' ∧ (cs.drop 1).head? ≠ some '+' then cs.drop 1 else cs
  if s.isEmpty then none
  else if s.head? = some '_' then none
  else parse_hex_go s 0

/-- The Unicode White_Space set used by Rust char::is_whitespace and
str::trim: U+0009-U+000D, U+0020, U+0085, U+00A0, U+1680, U+2000-U+200A,
U+2028, U+2029, U+202F, U+205F, U+3000. -/
def is_rust_whitespace (c : Char) : Bool :=
  ((9 ≤ c.toNat ∧ c.toNat ≤ 13) ∨ c.toNat = 32 ∨ c.toNat = 133 ∨
   c.toNat = 160 ∨ c.toNat = 5760 ∨ (8192 ≤ c.toNat ∧ c.toNat ≤ 8202) ∨
   c.toNat = 8232 ∨ c.toNat = 8233 ∨ c.toNat = 8239 ∨ c.toNat = 8287 ∨
   c.toNat = 12288 : Prop)

/-- str::trim: drop Unicode whitespace from both ends. -/
def trimChars (cs : List Char) : List Char :=
  ((cs.dropWhile is_rust_whitespace).reverse.dropWhile is_rust_whitespace).reverse

/-- BigNumber::set_hex_str: first component is the resulting stored value
(the old value `cur` if parsing fails), second is the returned character
count (0 on error). -/
def set_hex_str (cur : Nat) (hex : List Char) : Nat × Nat :=
  let t := trimChars hex
  if t.isEmpty then (cur, 0)
  else
    match parse_bytes_16 t with
    | some val => (val, t.length)
    | none => (cur, 0)

/-- Pure specification-side value of a list of hex digits. -/
def hexValue (cs : List Char) : Nat :=
  cs.foldl (fun a c => a * 16 + hex_val c) 0

/-- Specification side of the plus-sign handling: strip one leading plus
sign unconditionally.  This accepts and evaluates exactly as the
conditional strip of num-bigint, because a retained second plus sign is
rejected by the digit loop either way. -/
def plusStripped (cs : List Char) : List Char :=
  if cs.head? = some '+' then cs.drop 1 else cs

/-- Specification-side validity of a hex input at radix 16: after the plus
strip the string is nonempty, does not lead with an underscore separator,
and consists of hexadecimal digits and underscore separators only. -/
@[reducible] def valid_hex_input (cs : List Char) : Prop :=
  plusStripped cs ≠ [] ∧ (plusStripped cs).head? ≠ some '_' ∧
  (plusStripped cs).all hex_or_sep = true

/-- Specification-side parsed value: the hex value of the digits once the
underscore separators are removed. -/
def hex_input_value (cs : List Char) : Nat :=
  hexValue ((plusStripped cs).filter (fun c => c ≠ '_'))

/-! ## SRP6 session state -/

/-- The WoW-specific 256-bit safe prime N (srp6.rs sets it from the hex
string in SRP6::new). -/
def srp6_N : Nat :=
  0x894B645E89E1535BBDAD5B8B290650530801B18EBFBF5E8FAB3C82872A3E9BB7

/-- The SRP6 protocol state, one BigNumber field per Rust field. -/
structure SRP6 where
  n : Nat
  g : Nat
  s : Nat
  v : Nat
  b : Nat
  big_b : Nat
  big_a : Nat
  u : Nat
  big_s : Nat
  k : Nat
  m : Nat
deriving DecidableEq

/-- SRP6::new: constants N and g, all other fields zero. -/
def SRP6.new : SRP6 :=
  { n := srp6_N, g := 7, s := 0, v := 0, b := 0, big_b := 0, big_a := 0,
    u := 0, big_s := 0, k := 0, m := 0 }

/-- SRP6::proof: compare the first client_m.len() little-endian bytes of
the stored proof M with the client-supplied slice. -/
def SRP6.proof (st : SRP6) (client_m : List Nat) : Bool :=
  let our_m := as_byte_array st.m client_m.length
  our_m.take client_m.length == client_m.take client_m.length

/-! ## Round-trip lemmas for the byte conversions -/

theorem bytesToNatBE_nil : bytesToNatBE [] = 0 := rfl

theorem bytesToNatBE_snoc (l : List Nat) (b : Nat) :
    bytesToNatBE (l ++ [b]) = bytesToNatBE l * 256 + b := by
  simp [bytesToNatBE]

theorem bytesToNatBE_natToBytesLE_go (fuel : Nat) :
    ∀ n, n ≤ fuel → bytesToNatBE (natToBytesLE_go fuel n).reverse = n := by
  induction fuel with
  | zero =>
    intro n hn
    interval_cases n
    simp [natToBytesLE_go, bytesToNatBE]
  | succ fuel ih =>
    intro n hn
    match n with
    | 0 => simp [natToBytesLE_go, bytesToNatBE]
    | m + 1 =>
      rw [show natToBytesLE_go (fuel + 1) (m + 1) =
            ((m + 1) % 256) :: natToBytesLE_go fuel ((m + 1) / 256) from rfl]
      rw [List.reverse_cons, bytesToNatBE_snoc, ih _ (by omega)]
      omega

theorem bytesToNatBE_natToBytesLE (n : Nat) :
    bytesToNatBE (natToBytesLE n).reverse = n :=
  bytesToNatBE_natToBytesLE_go n n (Nat.le_refl n)

theorem bytesToNatBE_replicate_zero (k : Nat) (l : List Nat) :
    bytesToNatBE (List.replicate k 0 ++ l) = bytesToNatBE l := by
  induction k with
  | zero => simp
  | succ k ih =>
    simpa [bytesToNatBE, List.replicate_succ] using ih

theorem bytesToNatBE_to_bytes_be (n : Nat) :
    bytesToNatBE (to_bytes_be n) = n := by
  unfold to_bytes_be
  by_cases h : n = 0
  · subst h; simp [bytesToNatBE]
  · rw [if_neg h]; exact bytesToNatBE_natToBytesLE n

/-- C3: for all byte lengths L and every x representable in L bytes,
set_binary inverts as_byte_array exactly. -/
theorem set_binary_as_byte_array (L x : Nat) (_hx : x < 256 ^ L) :
    set_binary (as_byte_array x L) = x := by
  simp only [set_binary, as_byte_array, List.reverse_reverse]
  rw [bytesToNatBE_replicate_zero, bytesToNatBE_to_bytes_be]

/-- Witness for the C3 round-trip at L = 2, x = 258. -/
theorem set_binary_as_byte_array_witness :
    258 < 256 ^ 2 ∧ set_binary (as_byte_array 258 2) = 258 :=
  ⟨by decide, set_binary_as_byte_array 2 258 (by decide)⟩

/-! ## C10: set_hex_str -/

theorem parse_hex_go_eq (cs : List Char) (acc : Nat) :
    parse_hex_go cs acc =
      if cs.all hex_or_sep then
        some ((cs.filter (fun c => c ≠ '_')).foldl (fun a c => a * 16 + hex_val c) acc)
      else none := by
  induction cs generalizing acc with
  | nil => simp [parse_hex_go]
  | cons c rest ih =>
    rw [parse_hex_go]
    by_cases hu : c = '_'
    · subst hu
      rw [if_pos rfl, ih]
      have hh : hex_or_sep '_' = true := by decide
      simp [List.all_cons, List.filter_cons, hh]
    · rw [if_neg hu]
      by_cases hc : is_hex_digit c
      · have hh : hex_or_sep c = true := by simp [hex_or_sep, hc]
        rw [if_pos hc, ih]
        simp [List.all_cons, List.filter_cons, hh, hu]
      · have hh : hex_or_sep c = false := by simp [hex_or_sep, hc, hu]
        rw [if_neg hc]
        simp [List.all_cons, hh]

theorem parse_core_eq (s : List Char) :
    (if s.isEmpty then none
     else if s.head? = some '_' then none
     else parse_hex_go s 0) =
      if s ≠ [] ∧ s.head? ≠ some '_' ∧ s.all hex_or_sep = true then
        some (hexValue (s.filter (fun c => c ≠ '_')))
      else none := by
  cases s with
  | nil => simp
  | cons c rest =>
    rw [if_neg (by simp)]
    by_cases hus : (c :: rest).head? = some '_'
    · rw [if_pos hus, if_neg (by
        rintro ⟨-, hne, -⟩
        exact hne hus)]
    · rw [if_neg hus, parse_hex_go_eq]
      by_cases hall : (c :: rest).all hex_or_sep
      · rw [if_pos hall, if_pos ⟨by simp, hus, hall⟩]
        rfl
      · rw [if_neg hall, if_neg (by
          rintro ⟨-, -, hall2⟩
          exact hall hall2)]

theorem parse_bytes_16_eq (cs : List Char) :
    parse_bytes_16 cs =
      if valid_hex_input cs then some (hex_input_value cs) else none := by
  unfold parse_bytes_16 valid_hex_input hex_input_value
  by_cases hp : cs.head? = some '+' ∧ (cs.drop 1).head? ≠ some '+'
  · rw [if_pos hp]
    have hps : plusStripped cs = cs.drop 1 := by
      unfold plusStripped
      rw [if_pos hp.1]
    rw [hps, parse_core_eq]
  · rw [if_neg hp]
    by_cases hp1 : cs.head? = some '+'
    · have hpp : (cs.drop 1).head? = some '+' := by tauto
      have hps : plusStripped cs = cs.drop 1 := by
        unfold plusStripped
        rw [if_pos hp1]
      obtain ⟨tail, rfl⟩ : ∃ tail, cs = '+' :: tail := by
        cases cs with
        | nil => simp at hp1
        | cons a t =>
          refine ⟨t, ?_⟩
          simp only [List.head?_cons, Option.some.injEq] at hp1
          rw [hp1]
      obtain ⟨t2, rfl⟩ : ∃ t2, tail = '+' :: t2 := by
        cases tail with
        | nil => simp at hpp
        | cons a t =>
          refine ⟨t, ?_⟩
          simp only [List.drop_one, List.tail_cons, List.head?_cons,
            Option.some.injEq] at hpp
          rw [hpp]
      have hplus : hex_or_sep '+' = false := by decide
      rw [parse_core_eq]
      rw [if_neg (by
        rintro ⟨-, -, hall⟩
        rw [List.all_cons, hplus] at hall
        simp at hall)]
      rw [hps]
      rw [if_neg (by
        rintro ⟨-, -, hall⟩
        simp only [List.drop_one, List.tail_cons, List.all_cons, hplus] at hall
        simp at hall)]
    · have hps : plusStripped cs = cs := by
        unfold plusStripped
        rw [if_neg hp1]
      rw [hps, parse_core_eq]

/-- C10: set_hex_str returns 0 and keeps the stored value when the trimmed
input is empty or is not hexadecimal as num-bigint reads it (one optional
leading plus sign, hex digits with underscore separators, no leading
underscore); on valid input it stores the parsed integer and returns the
trimmed length. -/
theorem set_hex_str_spec (cur : Nat) (hex : List Char) :
    set_hex_str cur hex =
      if valid_hex_input (trimChars hex) then
        (hex_input_value (trimChars hex), (trimChars hex).length)
      else (cur, 0) := by
  unfold set_hex_str
  cases ht : trimChars hex with
  | nil => simp [valid_hex_input, plusStripped]
  | cons c rest =>
    simp only [List.isEmpty_cons, if_false, Bool.false_eq_true]
    rw [parse_bytes_16_eq]
    by_cases hv : valid_hex_input (c :: rest)
    · rw [if_pos hv, if_pos hv]
    · rw [if_neg hv, if_neg hv]

example : set_hex_str 5 ['+', '1', 'A'] = (26, 3) := by decide

example : set_hex_str 5 ['1', '_', 'A'] = (26, 3) := by decide

example : set_hex_str 5 ['_', '1'] = (5, 0) := by decide

example : set_hex_str 5 ['+', '+', '1'] = (5, 0) := by decide

example : set_hex_str 5 ['\u00A0', '1', 'A', '\u00A0'] = (26, 2) := by decide

example : set_hex_str 5 ['G', '1'] = (5, 0) := by decide

example : set_hex_str 5 [] = (5, 0) := by decide

/-! ## C2: SRP6::proof prefix comparison -/

/-- C2: proof compares the client bytes only against the first
client_m.len() bytes of the little-endian form of M, and an empty client
slice always verifies. -/
theorem proof_prefix_spec (st : SRP6) (client_m : List Nat) :
    (st.proof client_m = true ↔
      (as_byte_array st.m client_m.length).take client_m.length = client_m) ∧
    st.proof [] = true := by
  constructor
  · simp [SRP6.proof, List.take_length]
  · simp [SRP6.proof]

/-! ## SHA-1 (the sha1 crate behind Sha1Hash, implemented bit-exactly) -/

/-- Truncate to a 32-bit word. -/
def w32 (n : Nat) : Nat := n % 4294967296

/-- Rotate a 32-bit word left by k bits. -/
def rotl (x k : Nat) : Nat := w32 (x <<< k) ||| (x >>> (32 - k))

/-- Big-endian bytes of n, fixed width k (most significant first). -/
def toBEBytes (k : Nat) (n : Nat) : List Nat :=
  (List.range k).map (fun i => n / 256 ^ (k - 1 - i) % 256)

/-- SHA-1 message padding: 0x80, zeros to 56 mod 64, then the 64-bit
big-endian bit length. -/
def sha1_pad (msg : List Nat) : List Nat :=
  msg ++ [128] ++ List.replicate ((119 - msg.length % 64) % 64) 0
      ++ toBEBytes 8 (msg.length * 8)

/-- The sixteen 32-bit big-endian words of one 64-byte chunk. -/
def chunkWords (chunk : List Nat) : List Nat :=
  (List.range 16).map (fun i =>
    chunk.getD (4 * i) 0 * 16777216 + chunk.getD (4 * i + 1) 0 * 65536 +
    chunk.getD (4 * i + 2) 0 * 256 + chunk.getD (4 * i + 3) 0)

/-- SHA-1 message schedule: extend 16 words to 80. -/
def sha1_schedule (ws : List Nat) : List Nat :=
  (List.range 64).foldl
    (fun w i =>
      w ++ [rotl (w.getD (i + 13) 0 ^^^ w.getD (i + 8) 0 ^^^ w.getD (i + 2) 0 ^^^ w.getD i 0) 1])
    ws

/-- SHA-1 round function. -/
def sha1_f (i b c d : Nat) : Nat :=
  if i < 20 then (b &&& c) ||| ((4294967295 ^^^ b) &&& d)
  else if i < 40 then b ^^^ c ^^^ d
  else if i < 60 then (b &&& c) ||| (b &&& d) ||| (c &&& d)
  else b ^^^ c ^^^ d

/-- SHA-1 round constants. -/
def sha1_kc (i : Nat) : Nat :=
  if i < 20 then 0x5A827999
  else if i < 40 then 0x6ED9EBA1
  else if i < 60 then 0x8F1BBCDC
  else 0xCA62C1D6

/-- Compress one 64-byte chunk into the running state. -/
def sha1_compress (h : Nat × Nat × Nat × Nat × Nat) (chunk : List Nat) :
    Nat × Nat × Nat × Nat × Nat :=
  let w := sha1_schedule (chunkWords chunk)
  let st := (List.range 80).foldl
    (fun (st : Nat × Nat × Nat × Nat × Nat) i =>
      let a := st.1
      let b := st.2.1
      let c := st.2.2.1
      let d := st.2.2.2.1
      let e := st.2.2.2.2
      (w32 (rotl a 5 + sha1_f i b c d + e + sha1_kc i + w.getD i 0),
       a, rotl b 30, c, d))
    h
  (w32 (h.1 + st.1), w32 (h.2.1 + st.2.1), w32 (h.2.2.1 + st.2.2.1),
   w32 (h.2.2.2.1 + st.2.2.2.1), w32 (h.2.2.2.2 + st.2.2.2.2))

/-- Fuel-driven 64-byte chunking; any fuel at least the list length is
exact. -/
def chunks64_go : Nat → List Nat → List (List Nat)
  | _, [] => []
  | 0, _ => []
  | fuel + 1, l => l.take 64 :: chunks64_go fuel (l.drop 64)

/-- Split a byte list into 64-byte chunks. -/
def chunks64 (l : List Nat) : List (List Nat) :=
  chunks64_go l.length l

/-- SHA-1 of a byte list: 20-byte digest. -/
def sha1 (msg : List Nat) : List Nat :=
  let hs := (chunks64 (sha1_pad msg)).foldl sha1_compress
    (0x67452301, 0xEFCDAB89, 0x98BADCFE, 0x10325476, 0xC3D2E1F0)
  toBEBytes 4 hs.1 ++ toBEBytes 4 hs.2.1 ++ toBEBytes 4 hs.2.2.1 ++
    toBEBytes 4 hs.2.2.2.1 ++ toBEBytes 4 hs.2.2.2.2

example : sha1 [97, 98, 99] =
    [0xa9, 0x99, 0x3e, 0x36, 0x47, 0x06, 0x81, 0x6a, 0xba, 0x3e,
     0x25, 0x71, 0x78, 0x50, 0xc2, 0x6c, 0x9c, 0xd0, 0xd8, 0x9d] := by decide

theorem toBEBytes_length (k n : Nat) : (toBEBytes k n).length = k := by
  simp [toBEBytes]

theorem sha1_length (msg : List Nat) : (sha1 msg).length = 20 := by
  simp [sha1, toBEBytes_length]

theorem toBEBytes_mem_lt (k n : Nat) : ∀ b ∈ toBEBytes k n, b < 256 := by
  intro b hb
  simp only [toBEBytes, List.mem_map] at hb
  obtain ⟨i, _, rfl⟩ := hb
  exact Nat.mod_lt _ (by omega)

theorem sha1_mem_lt (msg : List Nat) : ∀ b ∈ sha1 msg, b < 256 := by
  intro b hb
  simp only [sha1, List.mem_append] at hb
  rcases hb with ((((h | h) | h) | h) | h) <;> exact toBEBytes_mem_lt _ _ _ h

/-- HMAC-SHA1 (the hmac crate behind hmac_sha1), RFC 2104 with a 64-byte
block: hash an over-long key, zero-pad, then the nested ipad/opad hashes. -/
def hmac_sha1 (key msg : List Nat) : List Nat :=
  let k0 := if 64 < key.length then sha1 key else key
  let kp := k0 ++ List.replicate (64 - k0.length) 0
  sha1 ((kp.map (fun b => b ^^^ 92)) ++ sha1 ((kp.map (fun b => b ^^^ 54)) ++ msg))

example : hmac_sha1 [107, 101, 121]
    [84, 104, 101, 32, 113, 117, 105, 99, 107, 32, 98, 114, 111, 119, 110,
     32, 102, 111, 120, 32, 106, 117, 109, 112, 115, 32, 111, 118, 101, 114,
     32, 116, 104, 101, 32, 108, 97, 122, 121, 32, 100, 111, 103] =
    [0xde, 0x7c, 0x9b, 0x85, 0xb8, 0xb7, 0x8a, 0xa6, 0xbc, 0x8a,
     0x7a, 0x36, 0xf7, 0x0a, 0x90, 0x70, 0x1c, 0x9d, 0xb4, 0xd9] := by decide

theorem hmac_sha1_length (key msg : List Nat) : (hmac_sha1 key msg).length = 20 := by
  simp [hmac_sha1, sha1_length]

theorem hmac_sha1_mem_lt (key msg : List Nat) : ∀ b ∈ hmac_sha1 key msg, b < 256 := by
  intro b hb
  exact sha1_mem_lt _ b hb

/-! ## C1: SRP6::calculate_session_key -/

/-- SRP6::calculate_session_key: parse A little-endian, reject A == 0 or
A mod N == 0, otherwise set u = SHA1(A bytes, B bytes) and
S = (A * (v^u mod N))^b mod N.  Second component is the Rust return. -/
def calculate_session_key (st : SRP6) (client_a : List Nat) : SRP6 × Bool :=
  if set_binary client_a = 0 then
    ({ st with big_a := set_binary client_a }, false)
  else if set_binary client_a % st.n = 0 then
    ({ st with big_a := set_binary client_a }, false)
  else
    ({ st with
        big_a := set_binary client_a,
        u := set_binary (sha1 (as_byte_array (set_binary client_a) 0 ++
               as_byte_array st.big_b 0)),
        big_s := (set_binary client_a *
            (st.v ^ set_binary (sha1 (as_byte_array (set_binary client_a) 0 ++
               as_byte_array st.big_b 0)) % st.n)) ^ st.b % st.n },
     true)

/-- C1: calculate_session_key fails exactly on A == 0 or A mod N == 0
(touching only the stored A), and otherwise stores u = SHA1(A bytes ++ B
bytes) and S = ((A * v^u) mod N)^b mod N, the specification formula. -/
theorem calculate_session_key_spec (st : SRP6) (client_a : List Nat) :
    calculate_session_key st client_a =
      if set_binary client_a = 0 ∨ set_binary client_a % st.n = 0 then
        ({ st with big_a := set_binary client_a }, false)
      else
        ({ st with
            big_a := set_binary client_a,
            u := set_binary (sha1 (as_byte_array (set_binary client_a) 0 ++
                   as_byte_array st.big_b 0)),
            big_s := (set_binary client_a *
                st.v ^ set_binary (sha1 (as_byte_array (set_binary client_a) 0 ++
                   as_byte_array st.big_b 0)) % st.n) ^ st.b % st.n },
         true) := by
  unfold calculate_session_key
  by_cases h0 : set_binary client_a = 0
  · rw [if_pos h0, if_pos (Or.inl h0)]
  · rw [if_neg h0]
    by_cases hm : set_binary client_a % st.n = 0
    · rw [if_pos hm, if_pos (Or.inr hm)]
    · have hcond : ¬(set_binary client_a = 0 ∨ set_binary client_a % st.n = 0) := by
        tauto
      rw [if_neg hm, if_neg hcond]
      simp only [Prod.mk.injEq, SRP6.mk.injEq, and_true, true_and]
      set A := set_binary client_a
      set u := set_binary (sha1 (as_byte_array A 0 ++ as_byte_array st.big_b 0))
      have h1 : A * (st.v ^ u % st.n) ≡ A * st.v ^ u [MOD st.n] :=
        Nat.ModEq.mul_left A (Nat.mod_modEq _ _)
      have h2 : A * st.v ^ u ≡ A * st.v ^ u % st.n [MOD st.n] :=
        (Nat.mod_modEq _ _).symm
      exact (h1.trans h2).pow st.b

/-! ## C6: SRP6::calculate_host_public_ephemeral -/

/-- SRP6::calculate_host_public_ephemeral, with the random 152-bit private
ephemeral b passed in explicitly (the Rust draws it from thread_rng).
Computes B = (v*3 + g^b mod N) mod N; the trailing assert that g^b mod N
fits in 32 bytes is modelled as the failure case none. -/
def calculate_host_public_ephemeral (st : SRP6) (b_rand : Nat) : Option SRP6 :=
  let st1 : SRP6 := { st with b := b_rand }
  let g_mod := st1.g ^ st1.b % st1.n
  let v_times_3 := st1.v * 3
  let sum := v_times_3 + g_mod
  let st2 : SRP6 := { st1 with big_b := sum % st1.n }
  if get_num_bytes g_mod ≤ 32 then some st2 else none

theorem get_num_bytes_le_32 (x : Nat) (h : x < 2 ^ 256) : get_num_bytes x ≤ 32 := by
  unfold get_num_bytes biguint_bits
  by_cases hx : x = 0
  · simp [hx]
  · rw [if_neg hx]
    have : Nat.log2 x < 256 := (Nat.log2_lt hx).mpr h
    omega

/-- C6: with the protocol prime installed (as SRP6::new guarantees) and b
any 152-bit draw, the function always succeeds and stores
B = (3*v + g^b mod N) mod N. -/
theorem calculate_host_public_ephemeral_spec (st : SRP6) (b_rand : Nat)
    (hn : st.n = srp6_N) (_hb : b_rand < 2 ^ 152) :
    calculate_host_public_ephemeral st b_rand =
      some { st with b := b_rand,
                     big_b := (3 * st.v + st.g ^ b_rand % st.n) % st.n } := by
  have hNpos : 0 < srp6_N := by decide
  have hNlt : srp6_N < 2 ^ 256 := by decide
  have hlt : st.g ^ b_rand % st.n < 2 ^ 256 := by
    rw [hn]
    exact lt_trans (Nat.mod_lt _ hNpos) hNlt
  have hbytes : get_num_bytes (st.g ^ b_rand % st.n) ≤ 32 := get_num_bytes_le_32 _ hlt
  simp only [calculate_host_public_ephemeral, hbytes, if_true, if_pos]
  rw [Nat.mul_comm st.v 3]

/-- Witness for C6 at the freshly constructed engine and b = 3. -/
theorem calculate_host_public_ephemeral_witness :
    (SRP6.new.n = srp6_N ∧ 3 < 2 ^ 152) ∧
    calculate_host_public_ephemeral SRP6.new 3 =
      some { SRP6.new with
             b := 3,
             big_b := (3 * SRP6.new.v + SRP6.new.g ^ 3 % SRP6.new.n) % SRP6.new.n } :=
  ⟨⟨rfl, by decide⟩, calculate_host_public_ephemeral_spec SRP6.new 3 rfl (by decide)⟩

/-! ## C5: SRP6::hash_session_key -/

/-- SRP6::hash_session_key, byte-level: t is the 32-byte little-endian
form of S; the first loop gathers the 16 even-indexed bytes into t1 and
hashes them, the second reuses t1 for the odd-indexed bytes, and the
digests are written to the even/odd positions of the 40-byte vk. -/
def hash_session_key_vk (big_s : Nat) : List Nat :=
  let t := as_byte_array big_s 32
  let t1e := (List.range 16).foldl (fun a i => a.set i (t.getD (i * 2) 0))
    (List.replicate 16 0)
  let d1 := sha1 t1e
  let vk1 := (List.range 20).foldl (fun a i => a.set (i * 2) (d1.getD i 0))
    (List.replicate 40 0)
  let t1o := (List.range 16).foldl (fun a i => a.set i (t.getD (i * 2 + 1) 0)) t1e
  let d2 := sha1 t1o
  (List.range 20).foldl (fun a i => a.set (i * 2 + 1) (d2.getD i 0)) vk1

/-- The strong session key K as stored: set_binary of the 40 vk bytes. -/
def hash_session_key (big_s : Nat) : Nat :=
  set_binary (hash_session_key_vk big_s)

/-- Specification-side even-indexed bytes of a list. -/
def evenBytes : List Nat → List Nat
  | [] => []
  | [a] => [a]
  | a :: _ :: rest => a :: evenBytes rest

/-- Specification-side odd-indexed bytes of a list. -/
def oddBytes : List Nat → List Nat
  | [] => []
  | [_] => []
  | _ :: b :: rest => b :: oddBytes rest

/-- Specification-side interleaving: first list at even positions, second
at odd positions (lists of equal length in every use). -/
def interleave : List Nat → List Nat → List Nat
  | [], ys => ys
  | x :: xs, [] => x :: xs
  | x :: xs, y :: ys => x :: y :: interleave xs ys

theorem foldl_set_length (p v : Nat → Nat) (n : Nat) (l : List Nat) :
    ((List.range n).foldl (fun a i => a.set (p i) (v i)) l).length = l.length := by
  induction n with
  | zero => simp
  | succ n ih =>
    rw [List.range_succ, List.foldl_append, List.foldl_cons, List.foldl_nil,
      List.length_set, ih]

theorem foldl_set_hit (p v : Nat → Nat) (l : List Nat)
    (hinj : ∀ i1 i2, p i1 = p i2 → i1 = i2) :
    ∀ (n i : Nat), i < n →
      ((List.range n).foldl (fun a k => a.set (p k) (v k)) l)[p i]? =
        if p i < l.length then some (v i) else none := by
  intro n
  induction n with
  | zero => intro i hi; omega
  | succ n ih =>
    intro i hi
    rw [List.range_succ, List.foldl_append, List.foldl_cons, List.foldl_nil]
    by_cases hin : i = n
    · subst hin
      rw [List.getElem?_set, if_pos rfl, foldl_set_length p v]
    · have hne : p n ≠ p i := fun he => hin (hinj _ _ he).symm
      rw [List.getElem?_set_ne hne]
      exact ih i (by omega)

theorem foldl_set_miss (p v : Nat → Nat) (l : List Nat) (j : Nat) :
    ∀ n : Nat, (∀ i, i < n → p i ≠ j) →
      ((List.range n).foldl (fun a k => a.set (p k) (v k)) l)[j]? = l[j]? := by
  intro n
  induction n with
  | zero => intro _; simp
  | succ n ih =>
    intro h
    rw [List.range_succ, List.foldl_append, List.foldl_cons, List.foldl_nil]
    rw [List.getElem?_set_ne (h n (by omega))]
    exact ih (fun i hi => h i (by omega))

theorem evenBytes_getElem? :
    ∀ (l : List Nat) (j : Nat), (evenBytes l)[j]? = l[2 * j]? := by
  intro l
  induction l using evenBytes.induct with
  | case1 => intro j; simp [evenBytes]
  | case2 a =>
    intro j
    match j with
    | 0 => simp [evenBytes]
    | j + 1 =>
      rw [show evenBytes [a] = [a] from rfl]
      rw [List.getElem?_cons_succ]
      have h2 : 2 * (j + 1) = (2 * j + 1) + 1 := by omega
      rw [h2, List.getElem?_cons_succ]
      simp
  | case3 a b rest ih =>
    intro j
    rw [show evenBytes (a :: b :: rest) = a :: evenBytes rest from rfl]
    match j with
    | 0 => simp
    | j + 1 =>
      rw [List.getElem?_cons_succ, ih j]
      have h2 : 2 * (j + 1) = (2 * j + 1) + 1 := by omega
      rw [h2, List.getElem?_cons_succ, List.getElem?_cons_succ]

theorem oddBytes_getElem? :
    ∀ (l : List Nat) (j : Nat), (oddBytes l)[j]? = l[2 * j + 1]? := by
  intro l
  induction l using oddBytes.induct with
  | case1 => intro j; simp [oddBytes]
  | case2 a =>
    intro j
    rw [show oddBytes [a] = [] from rfl]
    rw [List.getElem?_cons_succ]
    simp
  | case3 a b rest ih =>
    intro j
    rw [show oddBytes (a :: b :: rest) = b :: oddBytes rest from rfl]
    match j with
    | 0 => simp
    | j + 1 =>
      rw [List.getElem?_cons_succ, ih j]
      have h2 : 2 * (j + 1) + 1 = (2 * j + 1 + 1) + 1 := by omega
      rw [h2, List.getElem?_cons_succ, List.getElem?_cons_succ]

theorem evenBytes_length (l : List Nat) : (evenBytes l).length = (l.length + 1) / 2 := by
  induction l using evenBytes.induct with
  | case1 => rfl
  | case2 a => simp [evenBytes]
  | case3 a b rest ih =>
    rw [show evenBytes (a :: b :: rest) = a :: evenBytes rest from rfl]
    simp only [List.length_cons]
    omega

theorem oddBytes_length (l : List Nat) : (oddBytes l).length = l.length / 2 := by
  induction l using oddBytes.induct with
  | case1 => rfl
  | case2 a => simp [oddBytes]
  | case3 a b rest ih =>
    rw [show oddBytes (a :: b :: rest) = b :: oddBytes rest from rfl]
    simp only [List.length_cons]
    omega

theorem interleave_length (xs ys : List Nat) :
    (interleave xs ys).length = xs.length + ys.length := by
  induction xs, ys using interleave.induct with
  | case1 ys => simp [interleave]
  | case2 x xs => simp [interleave]
  | case3 x xs y ys ih =>
    rw [show interleave (x :: xs) (y :: ys) = x :: y :: interleave xs ys from rfl]
    simp only [List.length_cons]
    omega

theorem interleave_getElem? :
    ∀ (xs ys : List Nat), xs.length = ys.length → ∀ j,
      (interleave xs ys)[j]? = if j % 2 = 0 then xs[j / 2]? else ys[j / 2]? := by
  intro xs
  induction xs with
  | nil =>
    intro ys h j
    have hy : ys = [] := List.eq_nil_of_length_eq_zero h.symm
    subst hy
    rw [show interleave [] [] = [] from rfl]
    split <;> simp
  | cons x xs ih =>
    intro ys h j
    cases ys with
    | nil => simp at h
    | cons y ys =>
      rw [show interleave (x :: xs) (y :: ys) = x :: y :: interleave xs ys from rfl]
      match j with
      | 0 => simp
      | 1 => simp
      | j + 2 =>
        rw [List.getElem?_cons_succ, List.getElem?_cons_succ]
        rw [ih ys (by simpa using h) j]
        have h2 : (j + 2) % 2 = j % 2 := by omega
        have h3 : (j + 2) / 2 = j / 2 + 1 := by omega
        rw [h2, h3]
        by_cases hj : j % 2 = 0
        · rw [if_pos hj, if_pos hj, List.getElem?_cons_succ]
        · rw [if_neg hj, if_neg hj, List.getElem?_cons_succ]

theorem as_byte_array_length (n m : Nat) :
    (as_byte_array n m).length = max m (to_bytes_be n).length := by
  simp only [as_byte_array, List.length_reverse, List.length_append,
    List.length_replicate]
  split <;> omega

theorem natToBytesLE_go_length_le :
    ∀ (fuel n k : Nat), n < 256 ^ k → (natToBytesLE_go fuel n).length ≤ k := by
  intro fuel
  induction fuel with
  | zero => intro n k h; cases n <;> simp [natToBytesLE_go]
  | succ fuel ih =>
    intro n k h
    match n with
    | 0 => simp [natToBytesLE_go]
    | m + 1 =>
      rw [show natToBytesLE_go (fuel + 1) (m + 1) =
            ((m + 1) % 256) :: natToBytesLE_go fuel ((m + 1) / 256) from rfl]
      simp only [List.length_cons]
      match k with
      | 0 => simp at h
      | k + 1 =>
        have hd : (m + 1) / 256 < 256 ^ k := by
          rw [Nat.pow_succ, Nat.mul_comm] at h
          exact Nat.div_lt_of_lt_mul h
        have := ih ((m + 1) / 256) k hd
        omega

theorem to_bytes_be_length_le (n k : Nat) (hk : 0 < k) (h : n < 256 ^ k) :
    (to_bytes_be n).length ≤ k := by
  unfold to_bytes_be
  split
  · simpa using hk
  · simpa [natToBytesLE] using natToBytesLE_go_length_le n n k h

theorem as_byte_array_length_32 (S : Nat) (h : S < 256 ^ 32) :
    (as_byte_array S 32).length = 32 := by
  rw [as_byte_array_length]
  have := to_bytes_be_length_le S 32 (by omega) h
  omega

theorem t1_even_eq (t : List Nat) (ht : t.length = 32) :
    (List.range 16).foldl (fun a i => a.set i (t.getD (i * 2) 0))
      (List.replicate 16 0) = evenBytes t := by
  apply List.ext_getElem?
  intro j
  by_cases hj : j < 16
  · have hhit := foldl_set_hit (fun i => i) (fun i => t.getD (i * 2) 0)
      (List.replicate 16 0) (fun i1 i2 h => h) 16 j hj
    simp only [List.length_replicate] at hhit
    rw [hhit, if_pos hj, evenBytes_getElem?]
    have hmul : j * 2 = 2 * j := by omega
    have h2j : 2 * j < t.length := by omega
    rw [hmul, List.getD_eq_getElem?_getD, List.getElem?_eq_getElem h2j]
    simp
  · have hmiss := foldl_set_miss (fun i => i) (fun i => t.getD (i * 2) 0)
      (List.replicate 16 0) j 16 (by intro i hi; show i ≠ j; omega)
    simp only at hmiss
    rw [hmiss, List.getElem?_eq_none (by simp; omega),
      List.getElem?_eq_none (by rw [evenBytes_length, ht]; omega)]

theorem t1_odd_eq (t : List Nat) (ht : t.length = 32)
    (init : List Nat) (hinit : init.length = 16) :
    (List.range 16).foldl (fun a i => a.set i (t.getD (i * 2 + 1) 0)) init =
      oddBytes t := by
  apply List.ext_getElem?
  intro j
  by_cases hj : j < 16
  · have hhit := foldl_set_hit (fun i => i) (fun i => t.getD (i * 2 + 1) 0)
      init (fun i1 i2 h => h) 16 j hj
    simp only [hinit] at hhit
    rw [hhit, if_pos hj, oddBytes_getElem?]
    have hmul : j * 2 + 1 = 2 * j + 1 := by omega
    have h2j : 2 * j + 1 < t.length := by omega
    rw [hmul, List.getD_eq_getElem?_getD, List.getElem?_eq_getElem h2j]
    simp
  · have hmiss := foldl_set_miss (fun i => i) (fun i => t.getD (i * 2 + 1) 0)
      init j 16 (by intro i hi; show i ≠ j; omega)
    simp only at hmiss
    rw [hmiss, List.getElem?_eq_none (by omega),
      List.getElem?_eq_none (by rw [oddBytes_length, ht]; omega)]

theorem vk_interleave_eq (d1 d2 : List Nat) (h1 : d1.length = 20) (h2 : d2.length = 20) :
    (List.range 20).foldl (fun a i => a.set (i * 2 + 1) (d2.getD i 0))
      ((List.range 20).foldl (fun a i => a.set (i * 2) (d1.getD i 0))
        (List.replicate 40 0)) = interleave d1 d2 := by
  apply List.ext_getElem?
  intro j
  have hF1len : ((List.range 20).foldl (fun a i => a.set (i * 2) (d1.getD i 0))
      (List.replicate 40 0)).length = 40 := by
    rw [foldl_set_length (fun i => i * 2) (fun i => d1.getD i 0), List.length_replicate]
  by_cases hj : j < 40
  · by_cases hpar : j % 2 = 0
    · have hmiss := foldl_set_miss (fun i => i * 2 + 1) (fun i => d2.getD i 0)
        ((List.range 20).foldl (fun a i => a.set (i * 2) (d1.getD i 0))
          (List.replicate 40 0)) j 20
        (by intro i hi; show i * 2 + 1 ≠ j; omega)
      simp only at hmiss
      rw [hmiss]
      have hhit := foldl_set_hit (fun i => i * 2) (fun i => d1.getD i 0)
        (List.replicate 40 0)
        (by intro i1 i2 h; have h' : i1 * 2 = i2 * 2 := h; omega) 20 (j / 2) (by omega)
      simp only [List.length_replicate] at hhit
      have hidx : j / 2 * 2 = j := by omega
      rw [hidx] at hhit
      rw [hhit, if_pos hj, interleave_getElem? d1 d2 (by omega) j, if_pos hpar]
      rw [List.getD_eq_getElem?_getD, List.getElem?_eq_getElem (by omega : j / 2 < d1.length)]
      simp
    · have hhit := foldl_set_hit (fun i => i * 2 + 1) (fun i => d2.getD i 0)
        ((List.range 20).foldl (fun a i => a.set (i * 2) (d1.getD i 0))
          (List.replicate 40 0))
        (by intro i1 i2 h; have h' : i1 * 2 + 1 = i2 * 2 + 1 := h; omega) 20 (j / 2)
        (by omega)
      simp only [hF1len] at hhit
      have hidx : j / 2 * 2 + 1 = j := by omega
      rw [hidx] at hhit
      rw [hhit, if_pos hj, interleave_getElem? d1 d2 (by omega) j, if_neg hpar]
      rw [List.getD_eq_getElem?_getD, List.getElem?_eq_getElem (by omega : j / 2 < d2.length)]
      simp
  · have hmiss2 := foldl_set_miss (fun i => i * 2 + 1) (fun i => d2.getD i 0)
      ((List.range 20).foldl (fun a i => a.set (i * 2) (d1.getD i 0))
        (List.replicate 40 0)) j 20
      (by intro i hi; show i * 2 + 1 ≠ j; omega)
    simp only at hmiss2
    rw [hmiss2]
    have hmiss1 := foldl_set_miss (fun i => i * 2) (fun i => d1.getD i 0)
      (List.replicate 40 0) j 20 (by intro i hi; show i * 2 ≠ j; omega)
    simp only at hmiss1
    rw [hmiss1, List.getElem?_eq_none (by simp; omega),
      List.getElem?_eq_none (by rw [interleave_length, h1, h2]; omega)]

/-- C5: hash_session_key is a deterministic pure function of S; vk splits
the 32-byte little-endian form of S into its 16 even-indexed and 16
odd-indexed bytes, hashes each half with SHA-1, and re-interleaves the two
20-byte digests (first digest at even positions, second at odd positions)
into the 40-byte K material, which is stored via set_binary. -/
theorem hash_session_key_spec (S : Nat) (hS : S < 256 ^ 32) :
    hash_session_key_vk S =
      interleave (sha1 (evenBytes (as_byte_array S 32)))
        (sha1 (oddBytes (as_byte_array S 32))) ∧
    (hash_session_key_vk S).length = 40 ∧
    hash_session_key S = set_binary (hash_session_key_vk S) := by
  have ht : (as_byte_array S 32).length = 32 := as_byte_array_length_32 S hS
  have hmain : hash_session_key_vk S =
      interleave (sha1 (evenBytes (as_byte_array S 32)))
        (sha1 (oddBytes (as_byte_array S 32))) := by
    rw [hash_session_key_vk]
    rw [t1_even_eq (as_byte_array S 32) ht]
    rw [t1_odd_eq (as_byte_array S 32) ht (evenBytes (as_byte_array S 32))
      (by rw [evenBytes_length, ht])]
    rw [vk_interleave_eq _ _ (sha1_length _) (sha1_length _)]
  refine ⟨hmain, ?_, rfl⟩
  rw [hmain, interleave_length, sha1_length, sha1_length]

/-- Witness for C5 at S = 1. -/
theorem hash_session_key_witness :
    1 < 256 ^ 32 ∧
    (hash_session_key_vk 1 =
      interleave (sha1 (evenBytes (as_byte_array 1 32)))
        (sha1 (oddBytes (as_byte_array 1 32))) ∧
     (hash_session_key_vk 1).length = 40 ∧
     hash_session_key 1 = set_binary (hash_session_key_vk 1)) :=
  ⟨by decide, hash_session_key_spec 1 (by decide)⟩

/-! ## C7: wire packet parsers (protocol.rs) -/

/-- u16::from_le_bytes. -/
def u16le (b0 b1 : Nat) : Nat := b0 + 256 * b1

/-- u32::from_le_bytes. -/
def u32le (b0 b1 b2 b3 : Nat) : Nat :=
  b0 + 256 * b1 + 65536 * b2 + 16777216 * b3

/-- Logon challenge header (cmd already consumed): error byte + u16 size. -/
structure AuthLogonChallengeHeader where
  error : Nat
  size : Nat
deriving DecidableEq

/-- AuthLogonChallengeHeader::from_bytes: none on fewer than 3 bytes. -/
def AuthLogonChallengeHeader.from_bytes (data : List Nat) :
    Option AuthLogonChallengeHeader :=
  if data.length < 3 then none
  else some { error := data.getD 0 0,
              size := u16le (data.getD 1 0) (data.getD 2 0) }

/-- Logon challenge body. -/
structure AuthLogonChallengeBody where
  gamename : List Nat
  version1 : Nat
  version2 : Nat
  version3 : Nat
  build : Nat
  platform : List Nat
  os : List Nat
  country : List Nat
  timezone_bias : Nat
  ip : Nat
  username_len : Nat
  username : List Nat
deriving DecidableEq

/-- AuthLogonChallengeBody::from_bytes: none on fewer than 30 bytes, and
none again when the buffer is shorter than 30 plus the embedded username
length at offset 29. -/
def AuthLogonChallengeBody.from_bytes (data : List Nat) :
    Option AuthLogonChallengeBody :=
  if data.length < 30 then none
  else if data.length < 30 + data.getD 29 0 then none
  else some {
    gamename := data.take 4,
    version1 := data.getD 4 0,
    version2 := data.getD 5 0,
    version3 := data.getD 6 0,
    build := u16le (data.getD 7 0) (data.getD 8 0),
    platform := (data.drop 9).take 4,
    os := (data.drop 13).take 4,
    country := (data.drop 17).take 4,
    timezone_bias := u32le (data.getD 21 0) (data.getD 22 0) (data.getD 23 0)
      (data.getD 24 0),
    ip := u32le (data.getD 25 0) (data.getD 26 0) (data.getD 27 0) (data.getD 28 0),
    username_len := data.getD 29 0,
    username := (data.drop 30).take (data.getD 29 0) }

/-- Client logon proof. -/
structure AuthLogonProofClient where
  a : List Nat
  m1 : List Nat
  crc_hash : List Nat
  number_of_keys : Nat
  security_flags : Nat
deriving DecidableEq

/-- AuthLogonProofClient::from_bytes: expected size is 74 bytes, or 110
when the PIN payload is present; none on anything shorter. -/
def AuthLogonProofClient.from_bytes (data : List Nat) (with_pin : Bool) :
    Option AuthLogonProofClient :=
  if data.length < (if with_pin then 110 else 74) then none
  else some {
    a := data.take 32,
    m1 := (data.drop 32).take 20,
    crc_hash := (data.drop 52).take 20,
    number_of_keys := data.getD 72 0,
    security_flags := data.getD 73 0 }

/-- Client reconnect proof. -/
structure AuthReconnectProofClient where
  r1 : List Nat
  r2 : List Nat
  r3 : List Nat
  number_of_keys : Nat
deriving DecidableEq

/-- AuthReconnectProofClient::from_bytes: none on fewer than 57 bytes. -/
def AuthReconnectProofClient.from_bytes (data : List Nat) :
    Option AuthReconnectProofClient :=
  if data.length < 57 then none
  else some {
    r1 := data.take 16,
    r2 := (data.drop 16).take 20,
    r3 := (data.drop 36).take 20,
    number_of_keys := data.getD 56 0 }

/-- C7: every parser is total and returns none on any input shorter than
its minimum size; the challenge body additionally returns none whenever
the input is shorter than 30 bytes plus the embedded username length. -/
theorem packet_parsers_short_input_none :
    (∀ d : List Nat, d.length < 3 →
      AuthLogonChallengeHeader.from_bytes d = none) ∧
    (∀ d : List Nat, d.length < 30 →
      AuthLogonChallengeBody.from_bytes d = none) ∧
    (∀ d : List Nat, d.length < 30 + d.getD 29 0 →
      AuthLogonChallengeBody.from_bytes d = none) ∧
    (∀ d : List Nat, d.length < 74 →
      AuthLogonProofClient.from_bytes d false = none) ∧
    (∀ d : List Nat, d.length < 110 →
      AuthLogonProofClient.from_bytes d true = none) ∧
    (∀ d : List Nat, d.length < 57 →
      AuthReconnectProofClient.from_bytes d = none) := by
  refine ⟨?_, ?_, ?_, ?_, ?_, ?_⟩
  · intro d h
    rw [AuthLogonChallengeHeader.from_bytes, if_pos h]
  · intro d h
    rw [AuthLogonChallengeBody.from_bytes, if_pos h]
  · intro d h
    rw [AuthLogonChallengeBody.from_bytes]
    by_cases h30 : d.length < 30
    · rw [if_pos h30]
    · rw [if_neg h30, if_pos h]
  · intro d h
    rw [AuthLogonProofClient.from_bytes, if_pos (by simpa using h)]
  · intro d h
    rw [AuthLogonProofClient.from_bytes, if_pos (by simpa using h)]
  · intro d h
    rw [AuthReconnectProofClient.from_bytes, if_pos h]

/-- Witness for C7: one concrete short input per parser. -/
theorem packet_parsers_short_input_none_witness :
    (([] : List Nat).length < 3 ∧ AuthLogonChallengeHeader.from_bytes [] = none) ∧
    ((List.replicate 29 0).length < 30 ∧
      AuthLogonChallengeBody.from_bytes (List.replicate 29 0) = none) ∧
    ((List.replicate 30 5).length < 30 + (List.replicate 30 5).getD 29 0 ∧
      AuthLogonChallengeBody.from_bytes (List.replicate 30 5) = none) ∧
    ((List.replicate 73 0).length < 74 ∧
      AuthLogonProofClient.from_bytes (List.replicate 73 0) false = none) ∧
    ((List.replicate 109 0).length < 110 ∧
      AuthLogonProofClient.from_bytes (List.replicate 109 0) true = none) ∧
    ((List.replicate 56 0).length < 57 ∧
      AuthReconnectProofClient.from_bytes (List.replicate 56 0) = none) :=
  ⟨⟨by decide, packet_parsers_short_input_none.1 [] (by decide)⟩,
   ⟨by decide, packet_parsers_short_input_none.2.1 _ (by decide)⟩,
   ⟨by decide, packet_parsers_short_input_none.2.2.1 _ (by decide)⟩,
   ⟨by decide, packet_parsers_short_input_none.2.2.2.1 _ (by decide)⟩,
   ⟨by decide, packet_parsers_short_input_none.2.2.2.2.1 _ (by decide)⟩,
   ⟨by decide, packet_parsers_short_input_none.2.2.2.2.2 _ (by decide)⟩⟩

/-! ## C8: opcode/state legality in handle_client -/

/-- Authentication command opcodes (auth_codes.rs). -/
inductive AuthCmd where
  | LogonChallenge
  | LogonProof
  | ReconnectChallenge
  | ReconnectProof
  | RealmList
  | XferInitiate
  | XferData
  | XferAccept
  | XferResume
  | XferCancel
deriving DecidableEq, Fintype

/-- AuthCmd::from_u8. -/
def AuthCmd.from_u8 (val : Nat) : Option AuthCmd :=
  if val = 0x00 then some .LogonChallenge
  else if val = 0x01 then some .LogonProof
  else if val = 0x02 then some .ReconnectChallenge
  else if val = 0x03 then some .ReconnectProof
  else if val = 0x10 then some .RealmList
  else if val = 0x30 then some .XferInitiate
  else if val = 0x31 then some .XferData
  else if val = 0x32 then some .XferAccept
  else if val = 0x33 then some .XferResume
  else if val = 0x34 then some .XferCancel
  else none

/-- Per-connection session states (auth_socket.rs). -/
inductive SessionStatus where
  | Challenge
  | LogonProof
  | ReconProof
  | Patch
  | Authed
  | Closed
deriving DecidableEq, Fintype

/-- The expected-status table of handle_client: which state each opcode is
legal in (XferInitiate and XferData fall into the catch-all Closed arm). -/
def expected_status : AuthCmd → SessionStatus
  | .LogonChallenge => .Challenge
  | .LogonProof => .LogonProof
  | .ReconnectChallenge => .Challenge
  | .ReconnectProof => .ReconProof
  | .RealmList => .Authed
  | .XferAccept => .Patch
  | .XferResume => .Patch
  | .XferCancel => .Patch
  | .XferInitiate => .Closed
  | .XferData => .Closed

/-- One dispatch step of the handle_client read loop, abstracted over what
each handler would write to the socket: an unknown opcode, or an opcode
whose expected status differs from the current one, returns from the task
before any handler runs (first component: bytes written, always [] on that
path; second component: true when the connection is dropped there). -/
def session_step (status : SessionStatus) (cmd_byte : Nat)
    (handler_out : AuthCmd → List Nat) : List Nat × Bool :=
  match AuthCmd.from_u8 cmd_byte with
  | none => ([], true)
  | some cmd =>
    if expected_status cmd ≠ status then ([], true)
    else (handler_out cmd, false)

/-- C8: a LogonProof opcode byte (0x01) arriving in the fresh Challenge
state disconnects with no bytes written, for every possible handler
behaviour; and in general any opcode whose legal state differs from the
current state disconnects before its handler runs. -/
theorem opcode_state_legality :
    (∀ handler_out : AuthCmd → List Nat,
      session_step SessionStatus.Challenge 0x01 handler_out = ([], true)) ∧
    (∀ (status : SessionStatus) (byte : Nat) (handler_out : AuthCmd → List Nat),
      (∀ cmd, AuthCmd.from_u8 byte = some cmd → expected_status cmd ≠ status) →
      session_step status byte handler_out = ([], true)) := by
  constructor
  · intro handler_out
    rfl
  · intro status byte handler_out hlegal
    cases hcmd : AuthCmd.from_u8 byte with
    | none => simp [session_step, hcmd]
    | some cmd =>
      have hne : expected_status cmd ≠ status := hlegal cmd hcmd
      simp [session_step, hcmd, hne]

/-- Witness for C8: ReconnectChallenge (0x02) sent while Authed is
dropped with no output. -/
theorem opcode_state_legality_witness :
    (∀ cmd, AuthCmd.from_u8 0x02 = some cmd →
      expected_status cmd ≠ SessionStatus.Authed) ∧
    session_step SessionStatus.Authed 0x02 (fun _ => [7]) = ([], true) :=
  ⟨by decide,
   opcode_state_legality.2 SessionStatus.Authed 0x02 (fun _ => [7]) (by decide)⟩

/-! ## C4: load_realm_list count versus emitted entries -/

/-- Realm build info (the version triple; the per-OS hashes and the hotfix
letter play no role in the counting/emission logic). -/
structure RealmBuildInfo where
  build : Nat
  major_version : Nat
  minor_version : Nat
  bugfix_version : Nat
deriving DecidableEq

/-- A realm record (realm_list.rs); population_level (f32) is omitted as it
only flows into the packet payload, never into control flow. -/
structure Realm where
  id : Nat
  address : String
  icon : Nat
  realm_flags : Nat
  timezone : Nat
  allowed_security_level : Nat
  realm_builds : List Nat
  realm_build_info : RealmBuildInfo
deriving DecidableEq

/-- The eligible-realm count written as the leading count field of the
realm-list packet (identical in the 1.12.x and 2.x+ branches of
load_realm_list): realms whose allowed security level is at most the
account security level. -/
def eligible_count (realms : List (String × Realm)) (security_level : Nat) : Nat :=
  (realms.filter (fun p => p.2.allowed_security_level ≤ security_level)).length

/-- The realms for which load_realm_list emits a per-realm entry, in
snapshot order (identical skip condition in both build branches): a realm
is skipped only when security_level == 0 and its allowed security level is
positive. -/
def emitted_realms (realms : List (String × Realm)) (security_level : Nat) :
    List (String × Realm) :=
  realms.filter (fun p => ¬(security_level = 0 ∧ 0 < p.2.allowed_security_level))

/-- A realm restricted to security level 2. -/
def gm_only_realm : Realm :=
  { id := 1, address := "127.0.0.1:8085", icon := 0, realm_flags := 0,
    timezone := 1, allowed_security_level := 2, realm_builds := [5875],
    realm_build_info := { build := 5875, major_version := 1, minor_version := 12,
                          bugfix_version := 1 } }

/-- C4 exhibit: for an account of security level 1 and one realm of minimum
security level 2, load_realm_list writes a leading count of 0 but still
emits the realm entry, because the skip test only fires for level-0
accounts; the count field and the emitted entries disagree. -/
theorem load_realm_list_count_mismatch :
    eligible_count [("Test", gm_only_realm)] 1 = 0 ∧
    emitted_realms [("Test", gm_only_realm)] 1 = [("Test", gm_only_realm)] :=
  ⟨rfl, rfl⟩

/-- At security level 0 the count and the emitted entries agree, showing
the two filters were intended to coincide. -/
theorem load_realm_list_level_zero_agree (realms : List (String × Realm)) :
    eligible_count realms 0 = (emitted_realms realms 0).length := by
  unfold eligible_count emitted_realms
  congr 1
  apply List.filter_congr
  intro p _
  simp [Nat.le_zero, Nat.pos_iff_ne_zero]

/-! ## C9: base32 decoding and generate_token (TOTP) -/

/-- base32.rs cleaning pass: strip whitespace and hyphens, map the common
typos 0 to O, 1 to L, 8 to B, and uppercase the rest (ASCII). -/
def base32_clean (s : List Char) : List Char :=
  (s.filter (fun c => !(is_rust_whitespace c || c == '-'))).map
    (fun c => if c == '0' then 'O' else if c == '1' then 'L'
              else if c == '8' then 'B' else c.toUpper)

/-- base32.rs padding pass: pad with the padding character up to a
multiple of 8. -/
def base32_pad (cs : List Char) : List Char :=
  if cs.length % 8 = 0 then cs
  else cs ++ List.replicate (8 - cs.length % 8) '='

/-- Value of one RFC 4648 base32 symbol. -/
def base32_sym (c : Char) : Option Nat :=
  if 'A' ≤ c ∧ c ≤ 'Z' then some (c.toNat - 'A'.toNat)
  else if '2' ≤ c ∧ c ≤ '7' then some (c.toNat - '2'.toNat + 26)
  else none

/-- Decode one 8-character base32 block (the data_encoding::BASE32 decoder,
modelled per RFC 4648 with canonical checks): data symbols followed only by
padding, a valid data-symbol count (2, 4, 5, 7 or 8) and zero trailing
bits. -/
def base32_block_decode (block : List Char) : Option (List Nat) :=
  let dsyms := block.takeWhile (fun c => c ≠ '=')
  if ¬(block.drop dsyms.length).all (fun c => c = '=') then none
  else
    match dsyms.mapM base32_sym with
    | none => none
    | some vals =>
      let nb := if dsyms.length = 8 then some 5
                else if dsyms.length = 7 then some 4
                else if dsyms.length = 5 then some 3
                else if dsyms.length = 4 then some 2
                else if dsyms.length = 2 then some 1
                else none
      match nb with
      | none => none
      | some k =>
        let bits := vals.foldl (fun acc v => acc * 32 + v) 0
        let extra := dsyms.length * 5 - k * 8
        if bits % 2 ^ extra ≠ 0 then none
        else some (toBEBytes k (bits / 2 ^ extra))

/-- Fuel-driven block-by-block decoding; padding may only occur in the
final block.  Any fuel at least the list length is exact. -/
def base32_decode_go : Nat → List Char → Option (List Nat)
  | _, [] => some []
  | 0, _ => none
  | fuel + 1, cs =>
    match base32_block_decode (cs.take 8) with
    | none => none
    | some bytes =>
      if (cs.take 8).contains '=' ∧ cs.drop 8 ≠ [] then none
      else
        match base32_decode_go fuel (cs.drop 8) with
        | none => none
        | some rest => some (bytes ++ rest)

/-- base32_decode of base32.rs: clean, pad, then strict RFC 4648 decode;
none models the Err return. -/
def base32_decode (input : List Char) : Option (List Nat) :=
  base32_decode_go (base32_pad (base32_clean input)).length
    (base32_pad (base32_clean input))

example : base32_decode
    ['J', 'B', 'S', 'W', 'Y', '3', 'D', 'P', 'E', 'H', 'P', 'K', '3', 'P', 'X', 'P'] =
    some [72, 101, 108, 108, 111, 33, 222, 173, 190, 239] := by decide

example : base32_decode ['J', 'B', 'S', 'W', ' ', 'Y', '3', 'D', 'P'] =
    some [72, 101, 108, 108, 111] := by decide

example : base32_decode ['@'] = none := by decide

/-- The 8-byte challenge buffer of generate_token: the loop walks i from 7
down to 0, storing the low byte of the running timestamp and shifting it
right by 8 each step. -/
def totp_challenge (timestamp : Nat) : List Nat :=
  (((List.range 8).reverse).foldl
    (fun (p : List Nat × Nat) i => (p.1.set i (p.2 &&& 255), p.2 >>> 8))
    (List.replicate 8 0, timestamp)).1

/-- The dynamic-truncation arithmetic of generate_token: offset from the
low nibble of the last HMAC byte, four bytes assembled with shifts and
ors, masked to 31 bits. -/
def totp_trunc_hash (hm : List Nat) : Nat :=
  ((hm.getD (hm.getD 19 0 &&& 15) 0 <<< 24) |||
   (hm.getD ((hm.getD 19 0 &&& 15) + 1) 0 <<< 16) |||
   (hm.getD ((hm.getD 19 0 &&& 15) + 2) 0 <<< 8) |||
   hm.getD ((hm.getD 19 0 &&& 15) + 3) 0) &&& 0x7FFFFFFF

/-- generate_token of auth_socket.rs, with the current Unix time passed in
explicitly: -1 when base32 decoding fails, otherwise HMAC-SHA1 of the
challenge derived from now / 30, truncated and reduced mod 1,000,000. -/
def generate_token (b32key : List Char) (now : Nat) : Int :=
  match base32_decode b32key with
  | none => -1
  | some decoded =>
    Int.ofNat (totp_trunc_hash (hmac_sha1 decoded (totp_challenge (now / 30))) % 1000000)

example : generate_token
    ['G', 'E', 'Z', 'D', 'G', 'N', 'B', 'V', 'G', 'Y', '3', 'T', 'Q', 'O', 'J', 'Q',
     'G', 'E', 'Z', 'D', 'G', 'N', 'B', 'V', 'G', 'Y', '3', 'T', 'Q', 'O', 'J', 'Q']
    59 = 287082 := by decide

/-- RFC 4226 dynamic truncation, specification side: read four bytes
big-endian at the offset given by the low nibble of byte 19, keep the low
31 bits. -/
def rfc4226_truncate (hm : List Nat) : Nat :=
  (hm.getD (hm.getD 19 0 % 16) 0 * 2 ^ 24 +
   hm.getD (hm.getD 19 0 % 16 + 1) 0 * 2 ^ 16 +
   hm.getD (hm.getD 19 0 % 16 + 2) 0 * 2 ^ 8 +
   hm.getD (hm.getD 19 0 % 16 + 3) 0) % 2 ^ 31

theorem be_loop_getElem? :
    ∀ (n : Nat) (t : Nat) (l : List Nat) (j : Nat),
      ((((List.range n).reverse).foldl
        (fun (p : List Nat × Nat) i => (p.1.set i (p.2 &&& 255), p.2 >>> 8))
        (l, t)).1)[j]? =
      if j < n ∧ j < l.length then some ((t >>> (8 * (n - 1 - j))) &&& 255)
      else l[j]? := by
  intro n
  induction n with
  | zero =>
    intro t l j
    simp
  | succ n ih =>
    intro t l j
    rw [List.range_succ, List.reverse_append, List.reverse_singleton]
    rw [List.singleton_append, List.foldl_cons]
    rw [ih (t >>> 8) (l.set n (t &&& 255)) j]
    by_cases hj : j < n
    · by_cases hl : j < l.length
      · rw [if_pos ⟨hj, by simpa using hl⟩, if_pos ⟨by omega, hl⟩]
        rw [← Nat.shiftRight_add,
          show (8 : Nat) + 8 * (n - 1 - j) = 8 * (n + 1 - 1 - j) from by omega]
      · rw [if_neg (by simp; omega), if_neg (by omega)]
        rw [List.getElem?_set_ne (by omega)]
    · by_cases hjn : j = n
      · subst hjn
        rw [if_neg (by omega)]
        by_cases hl : j < l.length
        · rw [if_pos ⟨by omega, hl⟩, List.getElem?_set_self (by simpa using hl)]
          rw [show j + 1 - 1 - j = 0 from by omega, Nat.mul_zero, Nat.shiftRight_zero]
        · rw [if_neg (by omega), List.getElem?_set]
          rw [if_pos rfl, if_neg (by omega), List.getElem?_eq_none (by omega)]
      · rw [if_neg (by omega), if_neg (by omega)]
        rw [List.getElem?_set_ne (by omega)]

theorem toBEBytes_getElem? (k n j : Nat) :
    (toBEBytes k n)[j]? =
      if j < k then some (n / 256 ^ (k - 1 - j) % 256) else none := by
  unfold toBEBytes
  rw [List.getElem?_map]
  by_cases hj : j < k
  · rw [List.getElem?_range hj, if_pos hj]
    rfl
  · rw [if_neg hj, List.getElem?_eq_none (by simpa using by omega : (List.range k).length ≤ j)]
    rfl

theorem totp_challenge_eq (t : Nat) : totp_challenge t = toBEBytes 8 t := by
  apply List.ext_getElem?
  intro j
  unfold totp_challenge
  rw [be_loop_getElem? 8 t (List.replicate 8 0) j, toBEBytes_getElem?]
  by_cases hj : j < 8
  · rw [if_pos ⟨hj, by simpa using hj⟩, if_pos hj]
    rw [Nat.shiftRight_eq_div_pow]
    rw [show (255 : Nat) = 2 ^ 8 - 1 from rfl, Nat.and_pow_two_sub_one_eq_mod]
    rw [show (2 : Nat) ^ (8 * (8 - 1 - j)) = 256 ^ (8 - 1 - j) from by
      rw [Nat.pow_mul]]
  · rw [if_neg (by omega), if_neg hj]
    exact List.getElem?_eq_none (by simpa using by omega)

theorem lor_eq_add (x y k : Nat) (hx : x % 2 ^ k = 0) (hy : y < 2 ^ k) :
    x ||| y = x + y := by
  obtain ⟨m, rfl⟩ := Nat.dvd_of_mod_eq_zero hx
  apply Nat.eq_of_testBit_eq
  intro i
  rw [Nat.testBit_or, Nat.testBit_mul_pow_two_add m hy i]
  by_cases hik : i < k
  · rw [if_pos hik, Nat.testBit_mul_pow_two]
    have : ¬(i ≥ k) := by omega
    simp [this]
  · rw [if_neg hik]
    have hyb : y.testBit i = false :=
      Nat.testBit_lt_two_pow
        (lt_of_lt_of_le hy (Nat.pow_le_pow_right (by omega) (by omega)))
    rw [hyb, Nat.testBit_mul_pow_two]
    have : i ≥ k := by omega
    simp [this]

theorem getD_lt_256 (l : List Nat) (h : ∀ b ∈ l, b < 256) (i : Nat) :
    l.getD i 0 < 256 := by
  rw [List.getD_eq_getElem?_getD]
  cases hx : l[i]? with
  | none => simp
  | some b => simpa using h b (List.getElem?_mem hx)

theorem totp_trunc_hash_eq (hm : List Nat) (hb : ∀ b ∈ hm, b < 256) :
    totp_trunc_hash hm = rfc4226_truncate hm := by
  unfold totp_trunc_hash rfc4226_truncate
  have hoff : hm.getD 19 0 &&& 15 = hm.getD 19 0 % 16 := by
    rw [show (15 : Nat) = 2 ^ 4 - 1 from rfl, Nat.and_pow_two_sub_one_eq_mod]
  rw [hoff]
  set o := hm.getD 19 0 % 16 with ho
  have h0 : hm.getD o 0 < 256 := getD_lt_256 hm hb o
  have h1 : hm.getD (o + 1) 0 < 256 := getD_lt_256 hm hb (o + 1)
  have h2 : hm.getD (o + 2) 0 < 256 := getD_lt_256 hm hb (o + 2)
  have h3 : hm.getD (o + 3) 0 < 256 := getD_lt_256 hm hb (o + 3)
  rw [Nat.shiftLeft_eq, Nat.shiftLeft_eq, Nat.shiftLeft_eq]
  rw [lor_eq_add (hm.getD o 0 * 2 ^ 24) (hm.getD (o + 1) 0 * 2 ^ 16) 24
    (by omega) (by omega)]
  rw [lor_eq_add _ (hm.getD (o + 2) 0 * 2 ^ 8) 16 (by omega) (by omega)]
  rw [lor_eq_add _ (hm.getD (o + 3) 0) 8 (by omega) (by omega)]
  rw [show (0x7FFFFFFF : Nat) = 2 ^ 31 - 1 from rfl, Nat.and_pow_two_sub_one_eq_mod]

/-- C9: generate_token decodes the base32 secret (yielding -1 on decode
failure), feeds the 8-byte big-endian counter floor(now / 30) to HMAC-SHA1
keyed by the secret, applies RFC 4226 dynamic truncation (offset from the
low nibble of the last byte, 31-bit window) and reduces mod 1,000,000. -/
theorem generate_token_spec (b32key : List Char) (now : Nat) (_h : now < 2 ^ 64) :
    generate_token b32key now =
      match base32_decode b32key with
      | none => -1
      | some secret =>
        Int.ofNat (rfc4226_truncate (hmac_sha1 secret (toBEBytes 8 (now / 30))) %
          1000000) := by
  unfold generate_token
  cases hdec : base32_decode b32key with
  | none => rfl
  | some secret =>
    simp only
    rw [totp_challenge_eq]
    rw [totp_trunc_hash_eq _ (hmac_sha1_mem_lt secret (toBEBytes 8 (now / 30)))]

/-- Witness for C9 at the empty key (which decodes to the empty secret)
and time 59. -/
theorem generate_token_witness :
    59 < 2 ^ 64 ∧
    generate_token [] 59 =
      match base32_decode [] with
      | none => -1
      | some secret =>
        Int.ofNat (rfc4226_truncate (hmac_sha1 secret (toBEBytes 8 (59 / 30))) %
          1000000) :=
  ⟨by decide, generate_token_spec [] 59 (by decide)⟩
